import Mathlib

/-!
# Verification of the LDDL CodeBERT preprocessing core

Shallow embedding of `lddl/dask/bert/pretrain_codebert.py`:
the boundary-safe truncation engine (`_cut`, `_is_following_subword`,
`_adjust`, `_truncate`), the single/paired sequence trimmers
(`_truncate_seq`, `_truncate_seq_pair`), the masked-LM builder
(`create_masked_lm_predictions`) and the document packer
(`create_pairs_from_document`).

Modelling conventions:
* Python `str` tokens are Lean `String`s; `str.isalpha` is modelled on the
  token's character list (ASCII letters).
* Python's global `random` stream is made explicit: every coin flip
  (`random.random() < p` / `> p`) is a `Bool` drawn from an explicit stream,
  `random.shuffle` becomes universally quantified permutations, and the
  three-way masking draw becomes a `MaskDecision` stream.  Theorems quantify
  over all streams, covering every possible draw sequence.
* Python loops are written as fuel-indexed recursions where the fuel is the
  exact bound on the number of iterations (each iteration removes one element
  from the structure that provides the fuel), so the Lean functions compute
  by kernel reduction and agree with the Python loops on all inputs.
* Python exceptions (IndexError on popping an empty list, AssertionError)
  are modelled by `Option`: `none` means the Python call raises.
* Integer subtractions that can go negative in Python are performed in `ℤ`.
-/

abbrev Token := String

/-- Python `s.isalpha()` on a character list: non-empty and all alphabetic. -/
def pyIsAlpha (s : List Char) : Bool :=
  !s.isEmpty && s.all Char.isAlpha

/-- `_is_following_subword(word)`:
`word[:2] == "##" and len(word) > 2 and word[3:].isalpha()`.
Note the source slices from index 3 (not 2). -/
def _is_following_subword (word : Token) : Bool :=
  decide (word.data.take 2 = ['#', '#']) && decide (2 < word.data.length) &&
    pyIsAlpha (word.data.drop 3)

/-- Modelled from the spec: "a token is a continuation fragment iff it carries
the reserved two-character prefix marker and has at least one further character
after the marker that is alphabetic".  Used only to compare the spec's wording
with the source predicate `_is_following_subword`. -/
def specIsFollowingSubword (word : Token) : Prop :=
  word.data.take 2 = ['#', '#'] ∧ ∃ c ∈ word.data.drop 2, c.isAlpha

instance (word : Token) : Decidable (specIsFollowingSubword word) := by
  unfold specIsFollowingSubword; infer_instance

/-- The three-zone state of one sequence inside `_truncate`:
left-cut buffer, surviving tokens, right-cut buffer (all Python deques). -/
structure CutState where
  lcut : List Token
  tokens : List Token
  rcut : List Token
deriving DecidableEq

/-- `_cut(lcut, tokens, rcut)`: with a fresh coin (`random.random() > 0.5`),
either pop the back of `tokens` onto the front of `rcut`, or pop the front of
`tokens` onto the back of `lcut`. -/
def _cut (st : CutState) (coin : Bool) : CutState :=
  if coin then ⟨st.lcut, st.tokens.dropLast, st.tokens.getLastD "" :: st.rcut⟩
  else ⟨st.lcut ++ [st.tokens.headD ""], st.tokens.tail, st.rcut⟩

/-- First `while` of `_adjust` with `inclusive = True`: while the head of
`tokens` is a continuation fragment, pull the last element of `lcut` back in
(stopping if `lcut` is empty).  Fuel = `lcut.length` bounds the iterations
exactly: each step shortens `lcut` by one and fuel `0` implies `lcut = []`,
where the loop would stop anyway. -/
def adjHeadIncl : ℕ → List Token → List Token → List Token × List Token
  | 0, lcut, tokens => (lcut, tokens)
  | fuel + 1, lcut, tokens =>
    if tokens ≠ [] ∧ _is_following_subword (tokens.headD "") then
      if lcut = [] then (lcut, tokens)
      else adjHeadIncl fuel lcut.dropLast (lcut.getLastD "" :: tokens)
    else (lcut, tokens)

/-- First `while` of `_adjust` with `inclusive = False`: while the head of
`tokens` is a continuation fragment, evict it onto the back of `lcut`.
Fuel = `tokens.length`. -/
def adjHeadExcl : ℕ → List Token → List Token → List Token × List Token
  | 0, lcut, tokens => (lcut, tokens)
  | fuel + 1, lcut, tokens =>
    if tokens ≠ [] ∧ _is_following_subword (tokens.headD "") then
      adjHeadExcl fuel (lcut ++ [tokens.headD ""]) tokens.tail
    else (lcut, tokens)

/-- Second `while` of `_adjust` with `inclusive = True`: while the head of
`rcut` is a continuation fragment, pull it onto the back of `tokens`.
Fuel = `rcut.length`. -/
def adjTailIncl : ℕ → List Token → List Token → List Token × List Token
  | 0, tokens, rcut => (tokens, rcut)
  | fuel + 1, tokens, rcut =>
    if rcut ≠ [] ∧ _is_following_subword (rcut.headD "") then
      adjTailIncl fuel (tokens ++ [rcut.headD ""]) rcut.tail
    else (tokens, rcut)

/-- Second `while` of `_adjust` with `inclusive = False`: while the head of
`rcut` is a continuation fragment, evict the last element of `tokens` onto the
front of `rcut` (stopping if `tokens` is empty).  Fuel = `tokens.length`. -/
def adjTailExcl : ℕ → List Token → List Token → List Token × List Token
  | 0, tokens, rcut => (tokens, rcut)
  | fuel + 1, tokens, rcut =>
    if rcut ≠ [] ∧ _is_following_subword (rcut.headD "") then
      if tokens = [] then (tokens, rcut)
      else adjTailExcl fuel tokens.dropLast (tokens.getLastD "" :: rcut)
    else (tokens, rcut)

/-- The leading-edge pass of `_adjust`, with its freshly drawn `inclusive`. -/
def adjustHead (inclusive : Bool) (lcut tokens : List Token) :
    List Token × List Token :=
  if inclusive then adjHeadIncl lcut.length lcut tokens
  else adjHeadExcl tokens.length lcut tokens

/-- The trailing-edge pass of `_adjust`, with its freshly drawn `inclusive`. -/
def adjustTail (inclusive : Bool) (tokens rcut : List Token) :
    List Token × List Token :=
  if inclusive then adjTailIncl rcut.length tokens rcut
  else adjTailExcl tokens.length tokens rcut

/-- `_adjust(lcut, tokens, rcut)`: one `inclusive` coin per pass
(`incl1` for the head pass, `incl2` for the tail pass). -/
def _adjust (incl1 incl2 : Bool) (st : CutState) : CutState :=
  let h := adjustHead incl1 st.lcut st.tokens
  let t := adjustTail incl2 h.2 st.rcut
  ⟨h.1, t.1, t.2⟩

/-- Coarse loop of `_truncate`: while the combined surviving length exceeds
`max_length`, `_cut` the currently longer sequence (ties pick `B`).  `idx`
numbers the coins consumed so far.  Fuel = combined length: each iteration
removes exactly one token from a non-empty chosen sequence, and at fuel `0`
both are empty so the guard is false anyway. -/
def truncLoopAux : ℕ → ℕ → CutState → CutState → ℕ → (ℕ → Bool) →
    CutState × CutState × ℕ
  | 0, idx, A, B, _, _ => (A, B, idx)
  | fuel + 1, idx, A, B, maxLen, coins =>
    if maxLen < A.tokens.length + B.tokens.length then
      if B.tokens.length < A.tokens.length then
        truncLoopAux fuel (idx + 1) (_cut A (coins idx)) B maxLen coins
      else
        truncLoopAux fuel (idx + 1) A (_cut B (coins idx)) maxLen coins
    else (A, B, idx)

/-- The two three-zone states at the end of `_truncate`'s coarse loop,
together with the number of coins consumed so far. -/
def coarseState (tokens_A tokens_B : List Token) (max_length : ℕ)
    (coins : ℕ → Bool) : CutState × CutState × ℕ :=
  truncLoopAux (tokens_A.length + tokens_B.length) 0
    ⟨[], tokens_A, []⟩ ⟨[], tokens_B, []⟩ max_length coins

/-- `_truncate(tokens_A, tokens_B, max_length)` with the full three-zone
states of both sequences exposed (the source returns only the `tokens`
fields; see `_truncate`). -/
def truncateFull (tokens_A tokens_B : List Token) (max_length : ℕ)
    (coins : ℕ → Bool) : CutState × CutState :=
  let r := coarseState tokens_A tokens_B max_length coins
  let n := r.2.2
  (_adjust (coins n) (coins (n + 1)) r.1,
   _adjust (coins (n + 2)) (coins (n + 3)) r.2.1)

/-- `_truncate(tokens_A, tokens_B, max_length)`: the returned pair. -/
def _truncate (tokens_A tokens_B : List Token) (max_length : ℕ)
    (coins : ℕ → Bool) : List Token × List Token :=
  ((truncateFull tokens_A tokens_B max_length coins).1.tokens,
   (truncateFull tokens_A tokens_B max_length coins).2.tokens)

/-- Loop of `_truncate_seq`: while the length exceeds `max_num_tokens`,
remove from the front (coin true, `del tokens[0]`) or the back (`pop`).
`none` models the IndexError Python raises when `max_num_tokens < 0` forces a
removal from an empty list.  Fuel = `tokens.length`. -/
def truncateSeqAux : ℕ → List Token → ℤ → (ℕ → Bool) → Option (List Token)
  | 0, tokens, maxNum, _ =>
    if (tokens.length : ℤ) ≤ maxNum then some tokens else none
  | fuel + 1, tokens, maxNum, coins =>
    if (tokens.length : ℤ) ≤ maxNum then some tokens
    else if tokens = [] then none
    else truncateSeqAux fuel (if coins 0 then tokens.tail else tokens.dropLast)
      maxNum (fun n => coins (n + 1))

/-- `_truncate_seq(tokens, max_num_tokens)`. -/
def _truncate_seq (tokens : List Token) (max_num_tokens : ℤ)
    (coins : ℕ → Bool) : Option (List Token) :=
  truncateSeqAux tokens.length tokens max_num_tokens coins

/-- Loop of `_truncate_seq_pair`: while the combined length exceeds
`max_num_tokens`, remove one token (front on coin true, else back) from
`tokens_a` if it is strictly longer than `tokens_b`, else from `tokens_b`.
Fuel = combined length (the chosen list is non-empty whenever the guard
holds, because `max_num_tokens : ℕ`). -/
def truncSeqPairAux : ℕ → List Token → List Token → ℕ → (ℕ → Bool) →
    List Token × List Token
  | 0, a, b, _, _ => (a, b)
  | fuel + 1, a, b, maxNum, coins =>
    if a.length + b.length ≤ maxNum then (a, b)
    else if b.length < a.length then
      truncSeqPairAux fuel (if coins 0 then a.tail else a.dropLast) b maxNum
        (fun n => coins (n + 1))
    else
      truncSeqPairAux fuel a (if coins 0 then b.tail else b.dropLast) maxNum
        (fun n => coins (n + 1))

/-- `_truncate_seq_pair(tokens_a, tokens_b, max_num_tokens)`. -/
def _truncate_seq_pair (tokens_a tokens_b : List Token) (max_num_tokens : ℕ)
    (coins : ℕ → Bool) : List Token × List Token :=
  truncSeqPairAux (tokens_a.length + tokens_b.length) tokens_a tokens_b
    max_num_tokens coins

/-- Python `int(round(n * q))` on an exact rational `q`: round half to even,
computed directly on the numerator `q.num * n` and denominator `q.den` of the
product (`f` is its floor and `r` the numerator of its fractional part, so the
fractional part is below / above / exactly one half according as `2 * r` is
below / above / equal to the denominator). -/
def pyRoundMul (n : ℕ) (q : ℚ) : ℤ :=
  let num := q.num * (n : ℤ)
  let den := (q.den : ℤ)
  let f := num.fdiv den
  let r := num - f * den
  if 2 * r < den then f
  else if den < 2 * r then f + 1
  else if f % 2 = 0 then f else f + 1

/-- One masking draw of `create_masked_lm_predictions`, collapsing the nested
`random.random()` / `random.randint` branches: 80% replace with `[MASK]`,
10% keep the original token, 10% substitute `vocab_words[k]`. -/
inductive MaskDecision where
  | mask : MaskDecision
  | keep : MaskDecision
  | randWord : ℕ → MaskDecision

/-- The framed sequence of `create_masked_lm_predictions`:
`["[CLS]"] + ((tokens_a + ["[SEP]"]) if tokens_a else tokens_a) + tokens_b + ["[SEP]"]`. -/
def buildTokens (tokens_a tokens_b : List Token) : List Token :=
  ["[CLS]"] ++ (if tokens_a.isEmpty then tokens_a else tokens_a ++ ["[SEP]"]) ++
    tokens_b ++ ["[SEP]"]

/-- `cand_indexes`: every index of `tokens` whose token is not `[CLS]`/`[SEP]`. -/
def candIndexes (tokens : List Token) : List ℕ :=
  (List.range tokens.length).filter
    (fun i => ¬(tokens.getD i "" = "[CLS]" ∨ tokens.getD i "" = "[SEP]"))

/-- `num_to_predict = max(1, int(round(len(tokens) * masked_lm_ratio)))`. -/
def numToPredict (tokens : List Token) (masked_lm_ratio : ℚ) : ℕ :=
  max 1 (pyRoundMul tokens.length masked_lm_ratio).toNat

/-- The `masked_token` chosen for selected index `i`. -/
def maskedTokenOf (tokens vocab_words : List Token) (i : ℕ) :
    MaskDecision → Token
  | .mask => "[MASK]"
  | .keep => tokens.getD i ""
  | .randWord k => vocab_words.getD k ""

/-- Selection loop of `create_masked_lm_predictions` over the shuffled
candidate indexes; state is `(output_tokens, covered_indexes, masked_lms)`.
The `n`-th selection draws `decisions n`. -/
def mlmFold (tokens vocab_words : List Token) (ntp : ℕ)
    (decisions : ℕ → MaskDecision) :
    List ℕ → List Token × List ℕ × List (ℕ × Token) →
    List Token × List ℕ × List (ℕ × Token)
  | [], st => st
  | i :: rest, (out, covered, masked) =>
    if ntp ≤ masked.length then (out, covered, masked)
    else if i ∈ covered then
      mlmFold tokens vocab_words ntp decisions rest (out, covered, masked)
    else
      mlmFold tokens vocab_words ntp decisions rest
        (out.set i (maskedTokenOf tokens vocab_words i (decisions masked.length)),
         covered ++ [i], masked ++ [(i, tokens.getD i "")])

/-- Sorting key of `sorted(masked_lms, key=lambda x: x.index)`. -/
def pairLE (p q : ℕ × Token) : Prop := p.1 ≤ q.1

instance : DecidableRel pairLE := fun p q => Nat.decLe p.1 q.1

instance : IsTotal (ℕ × Token) pairLE := ⟨fun p q => Nat.le_total p.1 q.1⟩

instance : IsTrans (ℕ × Token) pairLE := ⟨fun _ _ _ h h' => Nat.le_trans h h'⟩

/-- `create_masked_lm_predictions(tokens_a, tokens_b, masked_lm_ratio,
vocab_words)`.  `shuffled` is the result of `random.shuffle(cand_indexes)`
(theorems quantify over all permutations of `candIndexes`), `decisions` the
per-selection masking draws.  Returns
`(output_tokens[1 : 1+num_tokens_a],
  output_tokens[2+num_tokens_a : 2+num_tokens_a+num_tokens_b],
  masked_lm_positions, masked_lm_labels)`. -/
def create_masked_lm_predictions (tokens_a tokens_b : List Token)
    (masked_lm_ratio : ℚ) (vocab_words : List Token) (shuffled : List ℕ)
    (decisions : ℕ → MaskDecision) :
    List Token × List Token × List ℕ × List Token :=
  let num_tokens_a := tokens_a.length
  let num_tokens_b := tokens_b.length
  let tokens := buildTokens tokens_a tokens_b
  let st := mlmFold tokens vocab_words (numToPredict tokens masked_lm_ratio)
    decisions shuffled (tokens, [], [])
  let masked_lms := List.insertionSort pairLE st.2.2
  ((st.1.drop 1).take num_tokens_a,
   (st.1.drop (2 + num_tokens_a)).take num_tokens_b,
   masked_lms.map Prod.fst, masked_lms.map Prod.snd)

/-- `CodePair`: tokenized code sentences and docstring segments.  Sentences
are plain token lists (the `Sentence`/`Document` wrappers only carry them). -/
structure CodePair where
  id : String
  codes : List (List Token)
  docstrings : List (List Token)
deriving DecidableEq

/-- One emitted instance of `create_pairs_from_document` (`doc` and `code`
are kept as token lists; the source joins them with spaces on emission). -/
structure TrainingInstance where
  id : String
  doc : List Token
  code : List Token
  num_tokens : ℕ
deriving DecidableEq

/-- `special_token_length = 3 if document.num_doc_segments else 2`. -/
def specialTokenLength (document : CodePair) : ℕ :=
  if document.docstrings.length ≠ 0 then 3 else 2

/-- `max_doc_seq_length = 64 if max_seq_length >= 512 else 32`. -/
def maxDocSeqLength (max_seq_length : ℕ) : ℕ :=
  if 512 ≤ max_seq_length then 64 else 32

/-- Description-accumulation loop of `create_pairs_from_document` (the
non-short branch).  `codesLen` is `len(document)` — the number of CODE
sentences, exactly as the source's flush condition
`i == len(document) - 1` uses it.  The chunk is always non-empty at a flush
(a segment was just appended), so the source's `if current_chunk:` is
omitted.  Falling off the loop without a flush leaves `doc_tokens = []`. -/
def docLoop (codesLen maxDoc : ℕ) (coins : ℕ → Bool) :
    List (List Token) → ℕ → List (List Token) → ℕ → Option (List Token)
  | [], _, _, _ => some []
  | seg :: rest, i, chunk, curLen =>
    let chunk' := chunk ++ [seg]
    let curLen' := curLen + seg.length
    if (i : ℤ) = (codesLen : ℤ) - 1 ∨ maxDoc < curLen' then
      let e := if maxDoc < curLen' ∧ 1 < chunk'.length then chunk'.length - 1
        else chunk'.length
      _truncate_seq (chunk'.take e).flatten (maxDoc : ℤ) coins
    else docLoop codesLen maxDoc coins rest (i + 1) chunk' curLen'

/-- The description-selection stage: with the short-sequence draw taken (and
at least one docstring segment), `doc_tokens` is exactly the first docstring
segment; otherwise run `docLoop`. -/
def docStage (document : CodePair) (max_seq_length : ℕ) (shortDraw : Bool)
    (docCoins : ℕ → Bool) : Option (List Token) :=
  if document.docstrings.length ≠ 0 ∧ shortDraw then
    some (document.docstrings.headD [])
  else
    docLoop document.codes.length (maxDocSeqLength max_seq_length) docCoins
      document.docstrings 0 [] 0

/-- The instance dict built at a flush:
`num_tokens = len(doc_tokens) + len(code_tokens) + special_token_length`. -/
def mkInstance (document : CodePair) (doc_tokens code_tokens : List Token) :
    TrainingInstance :=
  ⟨document.id, doc_tokens, code_tokens,
    doc_tokens.length + code_tokens.length + specialTokenLength document⟩

/-- Body-windowing loop of `create_pairs_from_document`.  `targetLen` is
`target_seq_length` and `maxNum` is `max_num_tokens` (the source sets them
equal).  At a flush: keep the last sentence as the next chunk's seed iff the
chunk length exceeds `max_num_tokens` and it holds more than one sentence;
concatenate ALL chunk sentences, `_truncate_seq` them to
`max_num_tokens - doc_length`; `none` models the failed
`assert len(code_tokens) >= 1`; emit only if this is the first instance or
the body has at least 16 tokens.  `fl` numbers the flushes, giving each
`_truncate_seq` call its own coin stream `flushCoins fl`. -/
def bodyLoop (document : CodePair) (targetLen maxNum : ℤ)
    (docTokens : List Token) (flushCoins : ℕ → ℕ → Bool) :
    List (List Token) → ℕ → List (List Token) → ℕ → List TrainingInstance →
    ℕ → Option (List TrainingInstance)
  | [], _, _, _, instances, _ => some instances
  | seg :: rest, i, chunk, curLen, instances, fl =>
    let chunk' := chunk ++ [seg]
    let curLen' := curLen + seg.length
    if (i : ℤ) = (document.codes.length : ℤ) - 1 ∨ targetLen < (curLen' : ℤ) then
      match _truncate_seq chunk'.flatten (maxNum - (docTokens.length : ℤ))
        (flushCoins fl) with
      | none => none
      | some code_tokens =>
        if 1 ≤ code_tokens.length then
          bodyLoop document targetLen maxNum docTokens flushCoins rest (i + 1)
            (if maxNum < (curLen' : ℤ) ∧ 1 < chunk'.length then [chunk'.getLastD []]
              else [])
            ((if maxNum < (curLen' : ℤ) ∧ 1 < chunk'.length then
                (chunk'.getLastD []).length else 0) + docTokens.length)
            (if instances = [] ∨ 16 ≤ code_tokens.length then
              instances ++ [mkInstance document docTokens code_tokens]
             else instances)
            (fl + 1)
        else none
    else
      bodyLoop document targetLen maxNum docTokens flushCoins rest (i + 1)
        chunk' curLen' instances fl

/-- `create_pairs_from_document(all_documents, document_index, ...)` for the
selected `document` (the list indexing is elided), with `masking` disabled as
in the source's actual call graph (the `masking`, `masked_lm_ratio` and
`vocab_words` parameters are never read by the source function).
`shortDraw` models `short_seq_p < short_seq_prob`. -/
def create_pairs_from_document (document : CodePair) (max_seq_length : ℕ)
    (shortDraw : Bool) (docCoins : ℕ → Bool) (flushCoins : ℕ → ℕ → Bool) :
    Option (List TrainingInstance) :=
  let maxNum : ℤ := (max_seq_length : ℤ) - (specialTokenLength document : ℤ)
  (docStage document max_seq_length shortDraw docCoins).bind fun doc_tokens =>
    bodyLoop document maxNum maxNum doc_tokens flushCoins document.codes 0 []
      doc_tokens.length [] 0

/-! ## General list lemmas -/

theorem headD_cons_tail {α : Type} (d : α) (l : List α) (h : l ≠ []) :
    l.headD d :: l.tail = l := by
  cases l with
  | nil => exact absurd rfl h
  | cons a t => rfl

theorem dropLast_concat_getLastD {α : Type} (d : α) (l : List α) (h : l ≠ []) :
    l.dropLast ++ [l.getLastD d] = l := by
  induction l using List.reverseRecOn with
  | nil => exact absurd rfl h
  | append_singleton xs x _ => simp

/-! ## Preservation of the three-zone decomposition (`C10` machinery) -/

theorem cut_concat (st : CutState) (c : Bool) (h : st.tokens ≠ []) :
    (_cut st c).lcut ++ ((_cut st c).tokens ++ (_cut st c).rcut) =
      st.lcut ++ (st.tokens ++ st.rcut) := by
  cases c with
  | false =>
    show (st.lcut ++ [st.tokens.headD ""]) ++ (st.tokens.tail ++ st.rcut) = _
    rw [List.append_assoc, List.singleton_append, ← List.cons_append,
      headD_cons_tail _ _ h]
  | true =>
    show st.lcut ++ (st.tokens.dropLast ++ (st.tokens.getLastD "" :: st.rcut)) = _
    rw [← List.singleton_append,
      ← List.append_assoc st.tokens.dropLast [st.tokens.getLastD ""] st.rcut,
      dropLast_concat_getLastD _ _ h]

theorem truncLoopAux_concat :
    ∀ (f idx : ℕ) (A B : CutState) (maxLen : ℕ) (coins : ℕ → Bool),
    ((truncLoopAux f idx A B maxLen coins).1.lcut ++
        ((truncLoopAux f idx A B maxLen coins).1.tokens ++
          (truncLoopAux f idx A B maxLen coins).1.rcut) =
      A.lcut ++ (A.tokens ++ A.rcut)) ∧
    ((truncLoopAux f idx A B maxLen coins).2.1.lcut ++
        ((truncLoopAux f idx A B maxLen coins).2.1.tokens ++
          (truncLoopAux f idx A B maxLen coins).2.1.rcut) =
      B.lcut ++ (B.tokens ++ B.rcut)) := by
  intro f
  induction f with
  | zero => intro idx A B maxLen coins; simp [truncLoopAux]
  | succ f ih =>
    intro idx A B maxLen coins
    rw [truncLoopAux]
    by_cases hc : maxLen < A.tokens.length + B.tokens.length
    · rw [if_pos hc]
      by_cases hab : B.tokens.length < A.tokens.length
      · rw [if_pos hab]
        have hA : A.tokens ≠ [] := by
          intro he
          have h0 : A.tokens.length = 0 := by rw [he]; rfl
          omega
        refine ⟨(ih _ _ _ _ _).1.trans (cut_concat _ _ hA), (ih _ _ _ _ _).2⟩
      · rw [if_neg hab]
        have hB : B.tokens ≠ [] := by
          intro he
          have h0 : B.tokens.length = 0 := by rw [he]; rfl
          omega
        exact ⟨(ih _ _ _ _ _).1, (ih _ _ _ _ _).2.trans (cut_concat _ _ hB)⟩
    · rw [if_neg hc]; exact ⟨rfl, rfl⟩

theorem adjHeadIncl_concat : ∀ (f : ℕ) (l t : List Token),
    (adjHeadIncl f l t).1 ++ (adjHeadIncl f l t).2 = l ++ t := by
  intro f
  induction f with
  | zero => intro l t; rfl
  | succ f ih =>
    intro l t
    rw [adjHeadIncl]
    by_cases hc : t ≠ [] ∧ _is_following_subword (t.headD "")
    · rw [if_pos hc]
      by_cases hl : l = []
      · rw [if_pos hl]
      · rw [if_neg hl, ih]
        rw [← List.singleton_append, ← List.append_assoc,
          dropLast_concat_getLastD _ _ hl]
    · rw [if_neg hc]

theorem adjHeadExcl_concat : ∀ (f : ℕ) (l t : List Token),
    (adjHeadExcl f l t).1 ++ (adjHeadExcl f l t).2 = l ++ t := by
  intro f
  induction f with
  | zero => intro l t; rfl
  | succ f ih =>
    intro l t
    rw [adjHeadExcl]
    by_cases hc : t ≠ [] ∧ _is_following_subword (t.headD "")
    · rw [if_pos hc, ih, List.append_assoc, List.singleton_append,
        headD_cons_tail _ _ hc.1]
    · rw [if_neg hc]

theorem adjTailIncl_concat : ∀ (f : ℕ) (t r : List Token),
    (adjTailIncl f t r).1 ++ (adjTailIncl f t r).2 = t ++ r := by
  intro f
  induction f with
  | zero => intro t r; rfl
  | succ f ih =>
    intro t r
    rw [adjTailIncl]
    by_cases hc : r ≠ [] ∧ _is_following_subword (r.headD "")
    · rw [if_pos hc, ih, List.append_assoc, List.singleton_append,
        headD_cons_tail _ _ hc.1]
    · rw [if_neg hc]

theorem adjTailExcl_concat : ∀ (f : ℕ) (t r : List Token),
    (adjTailExcl f t r).1 ++ (adjTailExcl f t r).2 = t ++ r := by
  intro f
  induction f with
  | zero => intro t r; rfl
  | succ f ih =>
    intro t r
    rw [adjTailExcl]
    by_cases hc : r ≠ [] ∧ _is_following_subword (r.headD "")
    · rw [if_pos hc]
      by_cases ht : t = []
      · rw [if_pos ht]
      · rw [if_neg ht, ih, ← List.singleton_append, ← List.append_assoc,
          dropLast_concat_getLastD _ _ ht]
    · rw [if_neg hc]

theorem adjustHead_concat (incl : Bool) (l t : List Token) :
    (adjustHead incl l t).1 ++ (adjustHead incl l t).2 = l ++ t := by
  cases incl with
  | false => exact adjHeadExcl_concat _ _ _
  | true => exact adjHeadIncl_concat _ _ _

theorem adjustTail_concat (incl : Bool) (t r : List Token) :
    (adjustTail incl t r).1 ++ (adjustTail incl t r).2 = t ++ r := by
  cases incl with
  | false => exact adjTailExcl_concat _ _ _
  | true => exact adjTailIncl_concat _ _ _

theorem adjust_concat (i1 i2 : Bool) (st : CutState) :
    (_adjust i1 i2 st).lcut ++
      ((_adjust i1 i2 st).tokens ++ (_adjust i1 i2 st).rcut) =
      st.lcut ++ (st.tokens ++ st.rcut) := by
  simp only [_adjust]
  rw [adjustTail_concat, ← List.append_assoc, adjustHead_concat,
    List.append_assoc]

/-- **C10.**  Throughout `_truncate`, for each of the two sequences the
ordered concatenation `lcut ++ tokens ++ rcut` is preserved (every `_cut` and
`_adjust` step preserves it, see `cut_concat` and `adjust_concat`) and equals
the original input sequence; consequently each returned sequence of
`_truncate` is a contiguous infix of its corresponding input — surviving
tokens in original order, none duplicated or invented. -/
theorem truncate_three_zone_invariant (tokens_A tokens_B : List Token)
    (max_length : ℕ) (coins : ℕ → Bool) :
    ((truncateFull tokens_A tokens_B max_length coins).1.lcut ++
        ((truncateFull tokens_A tokens_B max_length coins).1.tokens ++
          (truncateFull tokens_A tokens_B max_length coins).1.rcut) =
      tokens_A) ∧
    ((truncateFull tokens_A tokens_B max_length coins).2.lcut ++
        ((truncateFull tokens_A tokens_B max_length coins).2.tokens ++
          (truncateFull tokens_A tokens_B max_length coins).2.rcut) =
      tokens_B) ∧
    (∃ u v, u ++ ((_truncate tokens_A tokens_B max_length coins).1 ++ v) =
      tokens_A) ∧
    (∃ u v, u ++ ((_truncate tokens_A tokens_B max_length coins).2 ++ v) =
      tokens_B) := by
  have hc := truncLoopAux_concat (tokens_A.length + tokens_B.length) 0
    ⟨[], tokens_A, []⟩ ⟨[], tokens_B, []⟩ max_length coins
  have hc1 : (coarseState tokens_A tokens_B max_length coins).1.lcut ++
      ((coarseState tokens_A tokens_B max_length coins).1.tokens ++
        (coarseState tokens_A tokens_B max_length coins).1.rcut) = tokens_A := by
    simpa [coarseState] using hc.1
  have hc2 : (coarseState tokens_A tokens_B max_length coins).2.1.lcut ++
      ((coarseState tokens_A tokens_B max_length coins).2.1.tokens ++
        (coarseState tokens_A tokens_B max_length coins).2.1.rcut) = tokens_B := by
    simpa [coarseState] using hc.2
  have k1 : (truncateFull tokens_A tokens_B max_length coins).1.lcut ++
      ((truncateFull tokens_A tokens_B max_length coins).1.tokens ++
        (truncateFull tokens_A tokens_B max_length coins).1.rcut) = tokens_A :=
    (adjust_concat _ _ _).trans hc1
  have k2 : (truncateFull tokens_A tokens_B max_length coins).2.lcut ++
      ((truncateFull tokens_A tokens_B max_length coins).2.tokens ++
        (truncateFull tokens_A tokens_B max_length coins).2.rcut) = tokens_B :=
    (adjust_concat _ _ _).trans hc2
  exact ⟨k1, k2, ⟨_, _, k1⟩, ⟨_, _, k2⟩⟩

/-! ## C5: the continuation-fragment predicate -/

/-- **C5, counterexample.**  The claim reads `_is_following_subword` as true
for every token made of "##" followed by at least one alphabetic character,
e.g. `"##a"`.  The source slices from index 3 (`word[3:]`), so `"##a"`
(length 3, `word[3:] = ""`) is rejected although it satisfies the claim's
description. -/
theorem isFollowingSubword_spec_cex :
    specIsFollowingSubword "##a" ∧ _is_following_subword "##a" = false := by
  decide

/-- **C5 (amended).**  `_is_following_subword` returns true iff the token
starts with the two-character marker "##", is longer than two characters, and
the characters from index 3 onward are non-empty and all alphabetic (the
character at index 2 is unconstrained). -/
theorem isFollowingSubword_iff (word : Token) :
    _is_following_subword word = true ↔
      word.data.take 2 = ['#', '#'] ∧ 2 < word.data.length ∧
        word.data.drop 3 ≠ [] ∧ ∀ c ∈ word.data.drop 3, c.isAlpha = true := by
  simp [_is_following_subword, pyIsAlpha, List.isEmpty_iff, and_assoc]

/-! ## C6: which sequence loses a token -/

/-- **C6, counterexample.**  With `tokens_a = ["x"]` and `tokens_b = ["y"]`
(equal lengths) and cap 1, both `_truncate_seq_pair` and the coarse phase of
`_truncate` remove the token from the second sequence: the results keep the
first sequence intact and empty the second, refuting "when the two sequences
have equal length the choice falls on seq_a". -/
theorem truncation_tie_cex :
    _truncate_seq_pair ["x"] ["y"] 1 (fun _ => false) = (["x"], []) ∧
      _truncate ["x"] ["y"] 1 (fun _ => false) = (["x"], []) := by
  decide

/-- **C6 (amended).**  In each iteration of `_truncate_seq_pair`'s loop and of
the coarse phase of `_truncate` with the combined length still above the cap,
the sequence that loses a token is the strictly longer one, and on ties the
choice falls on the second sequence (`tokens_b` / `tokens_B`). -/
theorem truncation_picks_longer_ties_b (a b : List Token) (maxNum : ℕ)
    (coins : ℕ → Bool) (f idx : ℕ) (A B : CutState) (maxLen : ℕ) :
    (maxNum < a.length + b.length →
      _truncate_seq_pair a b maxNum coins =
        if b.length < a.length then
          truncSeqPairAux (a.length + b.length - 1)
            (if coins 0 then a.tail else a.dropLast) b maxNum
            (fun n => coins (n + 1))
        else
          truncSeqPairAux (a.length + b.length - 1) a
            (if coins 0 then b.tail else b.dropLast) maxNum
            (fun n => coins (n + 1))) ∧
    (maxLen < A.tokens.length + B.tokens.length →
      truncLoopAux (f + 1) idx A B maxLen coins =
        if B.tokens.length < A.tokens.length then
          truncLoopAux f (idx + 1) (_cut A (coins idx)) B maxLen coins
        else truncLoopAux f (idx + 1) A (_cut B (coins idx)) maxLen coins) := by
  constructor
  · intro h
    have hs : a.length + b.length = (a.length + b.length - 1) + 1 := by omega
    rw [_truncate_seq_pair, hs, truncSeqPairAux,
      if_neg (by omega : ¬a.length + b.length ≤ maxNum), Nat.add_sub_cancel]
  · intro h
    rw [truncLoopAux, if_pos h]

/-- Witness for `truncation_picks_longer_ties_b`: applied at the tie input
`(["x"], ["y"], cap 1)` for the pair trimmer and at a one-step coarse state,
with the hypotheses discharged by computation. -/
theorem truncation_picks_longer_ties_b_witness :
    _truncate_seq_pair ["x"] ["y"] 1 (fun _ => false) = (["x"], []) ∧
      truncLoopAux 1 0 ⟨[], ["x"], []⟩ ⟨[], ["y"], []⟩ 0 (fun _ => false) =
        (⟨[], ["x"], []⟩, ⟨["y"], [], []⟩, 1) :=
  ⟨((truncation_picks_longer_ties_b ["x"] ["y"] 1 (fun _ => false) 0 0
      ⟨[], ["x"], []⟩ ⟨[], ["y"], []⟩ 0).1 (by decide)).trans (by decide),
   ((truncation_picks_longer_ties_b ["x"] ["y"] 1 (fun _ => false) 0 0
      ⟨[], ["x"], []⟩ ⟨[], ["y"], []⟩ 0).2 (by decide)).trans (by decide)⟩

/-! ## C8: boundary-safety of the fine phase -/

theorem adjHeadIncl_no_orphan : ∀ (f : ℕ) (l t : List Token), l.length ≤ f →
    (adjHeadIncl f l t).2 ≠ [] →
    _is_following_subword ((adjHeadIncl f l t).2.headD "") = true →
    (adjHeadIncl f l t).1 = [] := by
  intro f
  induction f with
  | zero =>
    intro l t hf _ _
    have hl : l = [] := List.length_eq_zero.mp (Nat.le_zero.mp hf)
    simpa [adjHeadIncl] using hl
  | succ f ih =>
    intro l t hf h2 h3
    rw [adjHeadIncl] at h2 h3 ⊢
    by_cases hc : t ≠ [] ∧ _is_following_subword (t.headD "")
    · rw [if_pos hc] at h2 h3 ⊢
      by_cases hl : l = []
      · rw [if_pos hl] at h2 h3 ⊢; exact hl
      · rw [if_neg hl] at h2 h3 ⊢
        refine ih _ _ ?_ h2 h3
        have : l.length ≠ 0 := fun h0 => hl (List.length_eq_zero.mp h0)
        rw [List.length_dropLast]; omega
    · rw [if_neg hc] at h2 h3 ⊢
      exact absurd ⟨h2, h3⟩ hc

theorem adjHeadExcl_not_frag : ∀ (f : ℕ) (l t : List Token), t.length ≤ f →
    (adjHeadExcl f l t).2 ≠ [] →
    _is_following_subword ((adjHeadExcl f l t).2.headD "") = true → False := by
  intro f
  induction f with
  | zero =>
    intro l t hf h2 _
    have ht : t = [] := List.length_eq_zero.mp (Nat.le_zero.mp hf)
    rw [adjHeadExcl] at h2
    exact h2 ht
  | succ f ih =>
    intro l t hf h2 h3
    rw [adjHeadExcl] at h2 h3
    by_cases hc : t ≠ [] ∧ _is_following_subword (t.headD "")
    · rw [if_pos hc] at h2 h3
      refine ih _ _ ?_ h2 h3
      rw [List.length_tail]; omega
    · rw [if_neg hc] at h2 h3
      exact absurd ⟨h2, h3⟩ hc

theorem adjustHead_no_orphan (incl : Bool) (l t : List Token)
    (h2 : (adjustHead incl l t).2 ≠ [])
    (h3 : _is_following_subword ((adjustHead incl l t).2.headD "") = true) :
    (adjustHead incl l t).1 = [] := by
  cases incl with
  | true =>
    rw [adjustHead, if_pos rfl] at h2 h3 ⊢
    exact adjHeadIncl_no_orphan _ _ _ le_rfl h2 h3
  | false =>
    rw [adjustHead, if_neg Bool.false_ne_true] at h2 h3
    exact absurd (adjHeadExcl_not_frag _ _ _ le_rfl h2 h3) not_false

theorem adjTailIncl_tokens_append : ∀ (f : ℕ) (t r : List Token),
    ∃ add, (adjTailIncl f t r).1 = t ++ add := by
  intro f
  induction f with
  | zero => intro t r; exact ⟨[], by simp [adjTailIncl]⟩
  | succ f ih =>
    intro t r
    rw [adjTailIncl]
    by_cases hc : r ≠ [] ∧ _is_following_subword (r.headD "")
    · rw [if_pos hc]
      obtain ⟨add, ha⟩ := ih (t ++ [r.headD ""]) r.tail
      exact ⟨[r.headD ""] ++ add, by rw [ha, List.append_assoc]⟩
    · rw [if_neg hc]; exact ⟨[], by simp⟩

theorem adjTailExcl_tokens_take : ∀ (f : ℕ) (t r : List Token),
    ∃ k, (adjTailExcl f t r).1 = t.take k := by
  intro f
  induction f with
  | zero => intro t r; exact ⟨t.length, by simp [adjTailExcl]⟩
  | succ f ih =>
    intro t r
    rw [adjTailExcl]
    by_cases hc : r ≠ [] ∧ _is_following_subword (r.headD "")
    · rw [if_pos hc]
      by_cases ht : t = []
      · rw [if_pos ht]; exact ⟨0, by simp [ht]⟩
      · rw [if_neg ht]
        obtain ⟨k, hk⟩ := ih t.dropLast (t.getLastD "" :: r)
        refine ⟨min k (t.length - 1), ?_⟩
        rw [hk, List.dropLast_eq_take, List.take_take]
    · rw [if_neg hc]; exact ⟨t.length, by simp⟩

theorem headD_append_left {α : Type} (d : α) (t add : List α) (h : t ≠ []) :
    (t ++ add).headD d = t.headD d := by
  cases t with
  | nil => exact absurd rfl h
  | cons a l => rfl

theorem headD_take {α : Type} (d : α) (t : List α) (k : ℕ)
    (h : t.take k ≠ []) : (t.take k).headD d = t.headD d := by
  cases t with
  | nil => simp at h
  | cons a l =>
    cases k with
    | zero => simp at h
    | succ k => rfl

theorem adjustTail_headD (incl : Bool) (t r : List Token)
    (hres : (adjustTail incl t r).1 ≠ []) (ht : t ≠ []) :
    (adjustTail incl t r).1.headD "" = t.headD "" := by
  cases incl with
  | true =>
    rw [adjustTail, if_pos rfl]
    obtain ⟨add, ha⟩ := adjTailIncl_tokens_append r.length t r
    rw [ha]
    exact headD_append_left _ _ _ ht
  | false =>
    rw [adjustTail, if_neg Bool.false_ne_true] at hres ⊢
    obtain ⟨k, hk⟩ := adjTailExcl_tokens_take t.length t r
    rw [hk] at hres ⊢
    exact headD_take _ _ _ hres

/-- **C8, counterexample.**  Call `_truncate(["##xyz", "##aab", "w"], [], 1)`
with coins that cut twice from the back and then run the head pass exclusively
and the tail pass inclusively.  The returned first sequence is the single
continuation fragment `"##aab"` — it begins and ends the output — while its
preceding whole token `"##xyz"` was discarded into the same call's left-cut
buffer, violating the claimed postcondition. -/
theorem trim_pair_orphan_cex :
    truncateFull ["##xyz", "##aab", "w"] [] 1
        (fun n => n == 0 || n == 1 || n == 3) =
      (⟨["##xyz"], ["##aab"], ["w"]⟩, ⟨[], [], []⟩) ∧
    _truncate ["##xyz", "##aab", "w"] [] 1
        (fun n => n == 0 || n == 1 || n == 3) = (["##aab"], []) ∧
    _is_following_subword "##aab" = true ∧
    _is_following_subword "##xyz" = true := by
  decide

/-- **C8 (amended).**  The boundary-safety postcondition holds per sequence,
provided that side's head-adjustment pass leaves its sequence non-empty (the
violation in `trim_pair_orphan_cex` needs the head pass to empty the sequence
and the tail pass to repopulate it from the right-cut buffer): for each output
sequence of `_truncate` independently, if it begins with a continuation
fragment then that side's left-cut buffer is empty, i.e. no token preceding
the output was discarded — so the output neither begins nor (being then a
singleton case of the same condition) ends with a fragment whose antecedent
was discarded.  The two sides are stated as independent implications, so each
applies on its own in mixed cases (in particular when the other input is
empty). -/
theorem trim_pair_no_orphan (tokens_A tokens_B : List Token) (max_length : ℕ)
    (coins : ℕ → Bool) (A0 B0 : CutState) (n : ℕ)
    (hr : coarseState tokens_A tokens_B max_length coins = (A0, B0, n)) :
    ((adjustHead (coins n) A0.lcut A0.tokens).2 ≠ [] →
      (truncateFull tokens_A tokens_B max_length coins).1.tokens ≠ [] →
      _is_following_subword
        ((truncateFull tokens_A tokens_B max_length coins).1.tokens.headD "") =
        true →
      (truncateFull tokens_A tokens_B max_length coins).1.lcut = []) ∧
    ((adjustHead (coins (n + 2)) B0.lcut B0.tokens).2 ≠ [] →
      (truncateFull tokens_A tokens_B max_length coins).2.tokens ≠ [] →
      _is_following_subword
        ((truncateFull tokens_A tokens_B max_length coins).2.tokens.headD "") =
        true →
      (truncateFull tokens_A tokens_B max_length coins).2.lcut = []) := by
  have e : truncateFull tokens_A tokens_B max_length coins =
      (_adjust (coins n) (coins (n + 1)) A0,
       _adjust (coins (n + 2)) (coins (n + 3)) B0) := by
    rw [truncateFull, hr]
  rw [e]
  simp only [_adjust]
  constructor
  · intro hA1 hA2 hA3
    refine adjustHead_no_orphan _ _ _ hA1 ?_
    rw [← adjustTail_headD (coins (n + 1))
      (adjustHead (coins n) A0.lcut A0.tokens).2 A0.rcut hA2 hA1]
    exact hA3
  · intro hB1 hB2 hB3
    refine adjustHead_no_orphan _ _ _ hB1 ?_
    rw [← adjustTail_headD (coins (n + 3))
      (adjustHead (coins (n + 2)) B0.lcut B0.tokens).2 B0.rcut hB2 hB1]
    exact hB3

/-- Witness for `trim_pair_no_orphan`: input `["##aab"]` against the empty
second sequence (the counterexample's own family) with a cap large enough
that nothing is cut; the A-side output begins with a fragment and the theorem
yields its empty left-cut buffer, the B side independently for the symmetric
call. -/
theorem trim_pair_no_orphan_witness :
    (truncateFull ["##aab"] [] 5 (fun _ => true)).1.lcut = [] ∧
      (truncateFull [] ["##aab"] 5 (fun _ => true)).2.lcut = [] :=
  ⟨(trim_pair_no_orphan ["##aab"] [] 5 (fun _ => true)
      ⟨[], ["##aab"], []⟩ ⟨[], [], []⟩ 0 (by decide)).1 (by decide) (by decide)
      (by decide),
   (trim_pair_no_orphan [] ["##aab"] 5 (fun _ => true)
      ⟨[], [], []⟩ ⟨[], ["##aab"], []⟩ 0 (by decide)).2 (by decide) (by decide)
      (by decide)⟩

/-! ## C4: number and order of masked positions -/

theorem candIndexes_nodup (tokens : List Token) : (candIndexes tokens).Nodup :=
  (List.nodup_range _).filter _

theorem mlmFold_masked (tokens vocab : List Token) (ntp : ℕ)
    (decisions : ℕ → MaskDecision) :
    ∀ (shuffled : List ℕ) (out : List Token) (covered : List ℕ)
      (masked : List (ℕ × Token)),
    (∀ j ∈ shuffled, j ∉ covered) → shuffled.Nodup → masked.length ≤ ntp →
    (mlmFold tokens vocab ntp decisions shuffled (out, covered, masked)).2.2 =
      masked ++ (shuffled.take (ntp - masked.length)).map
        (fun j => (j, tokens.getD j "")) := by
  intro shuffled
  induction shuffled with
  | nil => intro out covered masked _ _ _; simp [mlmFold]
  | cons j rest ih =>
    intro out covered masked hdis hnd hlen
    rw [mlmFold]
    by_cases hbreak : ntp ≤ masked.length
    · rw [if_pos hbreak]
      have h0 : ntp - masked.length = 0 := by omega
      simp [h0]
    · rw [if_neg hbreak]
      have hj : j ∉ covered := hdis j (List.mem_cons_self j rest)
      rw [if_neg hj]
      rw [ih _ _ _ ?_ ?_ ?_]
      · have hs : ntp - masked.length =
            (ntp - (masked ++ [(j, tokens.getD j "")]).length) + 1 := by
          simp only [List.length_append, List.length_singleton]
          omega
        rw [hs, List.take_succ_cons]
        simp [List.append_assoc]
      · intro k hk
        simp only [List.mem_append, List.mem_singleton]
        push_neg
        refine ⟨hdis k (List.mem_cons_of_mem j hk), fun he => ?_⟩
        exact (List.nodup_cons.mp hnd).1 (he ▸ hk)
      · exact (List.nodup_cons.mp hnd).2
      · simp only [List.length_append, List.length_singleton]
        omega

/-- **C4, counterexample.**  With `tokens_a = []` and `tokens_b = ["[SEP]"]`
the framed sequence is `[CLS] [SEP] [SEP]` of length 3, so the claim's
hypothesis `len(full) - special_tokens = 3 - 2 = 1 ≥ 1` holds and it predicts
`max(1, round(3 * 0.15)) = 1` masked position; but every token equals a
special marker, the candidate list is empty (the empty list is its only
shuffle), and the code returns 0 masked positions. -/
theorem create_masked_lm_count_cex :
    (create_masked_lm_predictions [] ["[SEP]"] (mkRat 15 100) ["v"] []
        (fun _ => MaskDecision.mask)).2.2.1.length = 0 ∧
    numToPredict (buildTokens [] ["[SEP]"]) (mkRat 15 100) = 1 ∧
    (buildTokens [] ["[SEP]"]).length = 3 ∧
    candIndexes (buildTokens [] ["[SEP]"]) = [] := by
  decide

/-- **C4 (amended).**  For every input pair, ratio and random stream (any
permutation of the candidate indexes and any masking draws), the returned
`masked_lm_positions` has length exactly
`min (max(1, round(len(full) * ratio))) (number of candidate positions)`
— which equals the claimed `max(1, round(len(full) * ratio))` whenever enough
candidate positions exist — and its entries are strictly increasing. -/
theorem create_masked_lm_count_min (tokens_a tokens_b : List Token)
    (ratio : ℚ) (vocab : List Token) (shuffled : List ℕ)
    (decisions : ℕ → MaskDecision)
    (hperm : shuffled.Perm (candIndexes (buildTokens tokens_a tokens_b))) :
    (create_masked_lm_predictions tokens_a tokens_b ratio vocab shuffled
        decisions).2.2.1.length =
      min (numToPredict (buildTokens tokens_a tokens_b) ratio)
        (candIndexes (buildTokens tokens_a tokens_b)).length ∧
    List.Sorted (· < ·)
      (create_masked_lm_predictions tokens_a tokens_b ratio vocab shuffled
        decisions).2.2.1 := by
  have hnd : shuffled.Nodup := hperm.symm.nodup (candIndexes_nodup _)
  have hm := mlmFold_masked (buildTokens tokens_a tokens_b) vocab
    (numToPredict (buildTokens tokens_a tokens_b) ratio) decisions shuffled
    (buildTokens tokens_a tokens_b) [] [] (by simp) hnd (by simp)
  simp only [List.length_nil, Nat.sub_zero, List.nil_append] at hm
  simp only [create_masked_lm_predictions]
  rw [hm]
  set T := buildTokens tokens_a tokens_b with hT
  set ntp := numToPredict T ratio with hntp
  set final := (shuffled.take ntp).map (fun j => (j, T.getD j "")) with hfinal
  have hfst : final.map Prod.fst = shuffled.take ntp := by
    rw [hfinal, List.map_map]
    exact List.map_id _
  have hperm2 : (List.insertionSort pairLE final).Perm final :=
    List.perm_insertionSort _ _
  have hpermfst : ((List.insertionSort pairLE final).map Prod.fst).Perm
      (shuffled.take ntp) := by
    rw [← hfst]; exact hperm2.map _
  constructor
  · rw [List.length_map, List.length_insertionSort, hfinal, List.length_map,
      List.length_take, hperm.length_eq]
  · have hle : List.Sorted (· ≤ ·)
        ((List.insertionSort pairLE final).map Prod.fst) := by
      rw [List.Sorted, List.pairwise_map]
      exact List.sorted_insertionSort pairLE final
    have htake : (shuffled.take ntp).Nodup :=
      List.Nodup.sublist (List.take_sublist _ _) hnd
    have hnd2 : ((List.insertionSort pairLE final).map Prod.fst).Nodup :=
      hpermfst.symm.nodup htake
    exact hle.lt_of_le hnd2

/-- Witness for `create_masked_lm_count_min`: `tokens_a = ["a"]`,
`tokens_b = ["b"]`, ratio 0.15, with the identity shuffle of the candidate
list `[1, 3]`; one position is selected and the list is strictly
increasing. -/
theorem create_masked_lm_count_min_witness :
    (create_masked_lm_predictions ["a"] ["b"] (mkRat 15 100) ["v"]
        (candIndexes (buildTokens ["a"] ["b"]))
        (fun _ => MaskDecision.mask)).2.2.1.length =
      min (numToPredict (buildTokens ["a"] ["b"]) (mkRat 15 100))
        (candIndexes (buildTokens ["a"] ["b"])).length ∧
    List.Sorted (· < ·)
      (create_masked_lm_predictions ["a"] ["b"] (mkRat 15 100) ["v"]
        (candIndexes (buildTokens ["a"] ["b"]))
        (fun _ => MaskDecision.mask)).2.2.1 :=
  create_masked_lm_count_min ["a"] ["b"] (mkRat 15 100) ["v"] _ _
    (List.Perm.refl _)

/-! ## C9 and C7: totality and length bookkeeping of the packer -/

theorem truncateSeqAux_some : ∀ (f : ℕ) (tokens : List Token) (maxNum : ℤ)
    (coins : ℕ → Bool), tokens.length ≤ f → 0 ≤ maxNum →
    ∃ xs, truncateSeqAux f tokens maxNum coins = some xs ∧
      xs.length = min tokens.length maxNum.toNat := by
  intro f
  induction f with
  | zero =>
    intro tokens maxNum coins hf h0
    have ht : tokens = [] := List.length_eq_zero.mp (Nat.le_zero.mp hf)
    subst ht
    exact ⟨[], by rw [truncateSeqAux, if_pos (by simpa using h0)], by simp⟩
  | succ f ih =>
    intro tokens maxNum coins hf h0
    rw [truncateSeqAux]
    by_cases hle : (tokens.length : ℤ) ≤ maxNum
    · rw [if_pos hle]
      exact ⟨tokens, rfl, by omega⟩
    · rw [if_neg hle]
      have hne : tokens ≠ [] := by
        intro he
        apply hle
        rw [he]
        simpa using h0
      rw [if_neg hne]
      have hpos : tokens.length ≠ 0 := fun h => hne (List.length_eq_zero.mp h)
      have hlen' : (if coins 0 then tokens.tail else tokens.dropLast).length =
          tokens.length - 1 := by
        split
        · rw [List.length_tail]
        · rw [List.length_dropLast]
      obtain ⟨xs, hxs, hlenxs⟩ :=
        ih (if coins 0 then tokens.tail else tokens.dropLast) maxNum
          (fun n => coins (n + 1)) (by rw [hlen']; omega) h0
      exact ⟨xs, hxs, by rw [hlenxs, hlen']; omega⟩

theorem truncateSeq_some (tokens : List Token) (maxNum : ℤ)
    (coins : ℕ → Bool) (h0 : 0 ≤ maxNum) :
    ∃ xs, _truncate_seq tokens maxNum coins = some xs ∧
      xs.length = min tokens.length maxNum.toNat := by
  rw [_truncate_seq]
  exact truncateSeqAux_some tokens.length tokens maxNum coins le_rfl h0

theorem bodyLoop_total (document : CodePair) (targetLen maxNum : ℤ)
    (docTokens : List Token) (flushCoins : ℕ → ℕ → Bool)
    (hbud : (docTokens.length : ℤ) < maxNum) :
    ∀ (segs : List (List Token)) (i : ℕ) (chunk : List (List Token))
      (curLen : ℕ) (instances : List TrainingInstance) (fl : ℕ),
    (∀ s ∈ segs, s ≠ []) →
    ∃ out, bodyLoop document targetLen maxNum docTokens flushCoins segs i chunk
      curLen instances fl = some out := by
  intro segs
  induction segs with
  | nil => intro i chunk curLen instances fl _; exact ⟨instances, rfl⟩
  | cons seg rest ih =>
    intro i chunk curLen instances fl hseg
    simp only [bodyLoop]
    by_cases htrig : (i : ℤ) = (document.codes.length : ℤ) - 1 ∨
      targetLen < ((curLen + seg.length : ℕ) : ℤ)
    · rw [if_pos htrig]
      obtain ⟨ct, hct, hlen⟩ := truncateSeq_some ((chunk ++ [seg]).flatten)
        (maxNum - (docTokens.length : ℤ)) (flushCoins fl) (by omega)
      rw [hct]
      have hflat : 1 ≤ ((chunk ++ [seg]).flatten).length := by
        rw [List.flatten_append, List.length_append]
        have : seg ≠ [] := hseg seg (List.mem_cons_self seg rest)
        have : seg.length ≠ 0 := fun h => this (List.length_eq_zero.mp h)
        simp only [List.flatten, List.length_append]
        simp [List.length_flatten]
        omega
      have h1 : 1 ≤ ct.length := by
        rw [hlen]
        omega
      dsimp only
      rw [if_pos h1]
      exact ih _ _ _ _ _ fun s hs => hseg s (List.mem_cons_of_mem seg hs)
    · rw [if_neg htrig]
      exact ih _ _ _ _ _ fun s hs => hseg s (List.mem_cons_of_mem seg hs)

/-- **C9, counterexample.**  For the document with the single one-token body
sentence `["a"]`, no description, and `max_seq_length = 2`, the budget is
`max_body_tokens - description_length = (2 - 2) - 0 = 0 ≥ 0`, yet
`_truncate_seq` trims the body to zero tokens and the
`assert len(code_tokens) >= 1` fails (the call raises, modelled by `none`) —
refuting "a failure occurs only when `max_body_tokens - description_length
< 0`". -/
theorem create_pairs_assert_cex :
    create_pairs_from_document ⟨"h", [["a"]], []⟩ 2 false (fun _ => false)
        (fun _ _ => false) = none ∧
    docStage ⟨"h", [["a"]], []⟩ 2 false (fun _ => false) = some [] ∧
    (2 : ℤ) - (specialTokenLength ⟨"h", [["a"]], []⟩ : ℤ) -
      (([] : List Token).length : ℤ) = 0 := by
  decide

/-- **C9 (amended).**  Every flush completes without an assertion failure —
the whole call returns `some` — whenever
`max_body_tokens - description_length ≥ 1` (equivalently, the description
length is strictly below `max_body_tokens`) and every body sentence is
non-empty (the upstream reader guarantee); a failure is possible already when
the difference is `0`, as `create_pairs_assert_cex` shows. -/
theorem create_pairs_total (document : CodePair) (max_seq_length : ℕ)
    (shortDraw : Bool) (docCoins : ℕ → Bool) (flushCoins : ℕ → ℕ → Bool)
    (docTokens : List Token)
    (hseg : ∀ s ∈ document.codes, s ≠ [])
    (hdoc : docStage document max_seq_length shortDraw docCoins =
      some docTokens)
    (hbudget : (docTokens.length : ℤ) <
      (max_seq_length : ℤ) - (specialTokenLength document : ℤ)) :
    ∃ out, create_pairs_from_document document max_seq_length shortDraw
      docCoins flushCoins = some out := by
  obtain ⟨out, hout⟩ := bodyLoop_total document
    ((max_seq_length : ℤ) - (specialTokenLength document : ℤ))
    ((max_seq_length : ℤ) - (specialTokenLength document : ℤ)) docTokens
    flushCoins hbudget document.codes 0 [] docTokens.length [] 0 hseg
  refine ⟨out, ?_⟩
  simp only [create_pairs_from_document]
  rw [hdoc]
  simpa using hout

/-- Witness for `create_pairs_total`: a one-sentence document with
`max_seq_length = 4` satisfies all hypotheses and the packer returns
`some`. -/
theorem create_pairs_total_witness :
    ∃ out, create_pairs_from_document ⟨"k", [["x"]], []⟩ 4 false
      (fun _ => false) (fun _ _ => false) = some out :=
  create_pairs_total ⟨"k", [["x"]], []⟩ 4 false (fun _ => false)
    (fun _ _ => false) [] (by decide) (by decide) (by decide)

theorem bodyLoop_num_tokens (document : CodePair) (max_seq_length : ℕ)
    (targetLen : ℤ) (docTokens : List Token) (flushCoins : ℕ → ℕ → Bool)
    (hbud : (docTokens.length : ℤ) <
      (max_seq_length : ℤ) - (specialTokenLength document : ℤ)) :
    ∀ (segs : List (List Token)) (i : ℕ) (chunk : List (List Token))
      (curLen : ℕ) (instances : List TrainingInstance) (fl : ℕ)
      (out : List TrainingInstance),
    bodyLoop document targetLen
      ((max_seq_length : ℤ) - (specialTokenLength document : ℤ)) docTokens
      flushCoins segs i chunk curLen instances fl = some out →
    (∀ inst ∈ instances,
      inst.doc = docTokens ∧
      inst.num_tokens =
        inst.doc.length + inst.code.length + specialTokenLength document ∧
      inst.num_tokens ≤ max_seq_length) →
    ∀ inst ∈ out,
      inst.doc = docTokens ∧
      inst.num_tokens =
        inst.doc.length + inst.code.length + specialTokenLength document ∧
      inst.num_tokens ≤ max_seq_length := by
  intro segs
  induction segs with
  | nil =>
    intro i chunk curLen instances fl out hout hinv
    rw [bodyLoop] at hout
    cases hout
    exact hinv
  | cons seg rest ih =>
    intro i chunk curLen instances fl out hout hinv
    simp only [bodyLoop] at hout
    by_cases htrig : (i : ℤ) = (document.codes.length : ℤ) - 1 ∨
      targetLen < ((curLen + seg.length : ℕ) : ℤ)
    · rw [if_pos htrig] at hout
      obtain ⟨ct, hct, hlen⟩ := truncateSeq_some ((chunk ++ [seg]).flatten)
        (((max_seq_length : ℤ) - (specialTokenLength document : ℤ)) -
          (docTokens.length : ℤ)) (flushCoins fl) (by omega)
      rw [hct] at hout
      dsimp only at hout
      by_cases h1 : 1 ≤ ct.length
      · rw [if_pos h1] at hout
        refine ih _ _ _ _ _ _ hout ?_
        intro inst hinst
        by_cases hemit : instances = [] ∨ 16 ≤ ct.length
        · rw [if_pos hemit] at hinst
          rcases List.mem_append.mp hinst with hold | hnew
          · exact hinv inst hold
          · have he : inst = mkInstance document docTokens ct :=
              List.mem_singleton.mp hnew
            subst he
            refine ⟨rfl, rfl, ?_⟩
            have hctle : (ct.length : ℤ) ≤
                (max_seq_length : ℤ) - (specialTokenLength document : ℤ) -
                  (docTokens.length : ℤ) := by
              rw [hlen]
              push_cast
              omega
            simp only [mkInstance]
            omega
        · rw [if_neg hemit] at hinst
          exact hinv inst hinst
      · rw [if_neg h1] at hout
        cases hout
    · rw [if_neg htrig] at hout
      exact ih _ _ _ _ _ _ hout hinv

/-- **C7.**  For every emitted `TrainingInstance` (masking is disabled in the
source's call graph), under the valid-budget precondition
`max_body_tokens - description_length ≥ 1`, the recorded `num_tokens` equals
description length plus body length plus `special_token_length` (3 when the
document has docstring segments, else 2), and this total is at most
`max_seq_length`. -/
theorem create_pairs_length_bound (document : CodePair) (max_seq_length : ℕ)
    (shortDraw : Bool) (docCoins : ℕ → Bool) (flushCoins : ℕ → ℕ → Bool)
    (docTokens : List Token) (out : List TrainingInstance)
    (hdoc : docStage document max_seq_length shortDraw docCoins =
      some docTokens)
    (hbudget : (docTokens.length : ℤ) <
      (max_seq_length : ℤ) - (specialTokenLength document : ℤ))
    (hout : create_pairs_from_document document max_seq_length shortDraw
      docCoins flushCoins = some out) :
    ∀ inst ∈ out,
      inst.num_tokens =
        inst.doc.length + inst.code.length + specialTokenLength document ∧
      inst.num_tokens ≤ max_seq_length := by
  simp only [create_pairs_from_document] at hout
  rw [hdoc] at hout
  simp only [Option.some_bind] at hout
  intro inst hinst
  exact (bodyLoop_num_tokens document max_seq_length _ docTokens flushCoins
    hbudget document.codes 0 [] docTokens.length [] 0 out hout
    (fun inst h => absurd h (List.not_mem_nil inst)) inst hinst).2

/-- Witness for `create_pairs_length_bound`: the document
`⟨"f", [["x"], ["y"], ["z"]], [["a", "b"]]⟩` with `max_seq_length = 128`
emits exactly one instance, whose `num_tokens = 0 + 3 + 3 = 6 ≤ 128`. -/
theorem create_pairs_length_bound_witness :
    (TrainingInstance.mk "f" [] ["x", "y", "z"] 6).num_tokens =
      (TrainingInstance.mk "f" [] ["x", "y", "z"] 6).doc.length +
        (TrainingInstance.mk "f" [] ["x", "y", "z"] 6).code.length +
        specialTokenLength ⟨"f", [["x"], ["y"], ["z"]], [["a", "b"]]⟩ ∧
    (TrainingInstance.mk "f" [] ["x", "y", "z"] 6).num_tokens ≤ 128 :=
  create_pairs_length_bound ⟨"f", [["x"], ["y"], ["z"]], [["a", "b"]]⟩ 128
    false (fun _ => false) (fun _ _ => false) [] [⟨"f", [], ["x", "y", "z"], 6⟩]
    (by decide) (by decide) (by decide) ⟨"f", [], ["x", "y", "z"], 6⟩
    (by decide)

/-! ## C1, C2, C3: divergences of the packer and the masker -/

/-- **C1 (code bug).**  The description-accumulation loop's flush condition is
`i == len(document) - 1`, where `len(document)` counts the CODE sentences, not
the docstring segments.  For a document with 3 code sentences but a single
2-token docstring segment (well within the 32-token budget) the loop exits
without ever flushing, and the emitted instance's description is empty even
though description sentences exist and fit the budget. -/
theorem create_pairs_empty_description_eval :
    create_pairs_from_document ⟨"f", [["x"], ["y"], ["z"]], [["a", "b"]]⟩ 128
        false (fun _ => false) (fun _ _ => false) =
      some [⟨"f", [], ["x", "y", "z"], 6⟩] ∧
    docStage ⟨"f", [["x"], ["y"], ["z"]], [["a", "b"]]⟩ 128 false
      (fun _ => false) = some [] := by
  decide

/-- **C2 (code bug).**  With an empty description no separator is inserted
after it, but the body slice still starts at offset `2 + num_tokens_a = 2`:
for `tokens_a = []`, `tokens_b = ["x", "y"]` and keep-only draws the framed
sequence is `[CLS] x y [SEP]` and the returned body is `["y", "[SEP]"]` — the
body segment shifted by one, swallowing the final separator — so
reconstructing `[CLS] + description' (+ [SEP] if non-empty) + body' + [SEP]`
does not reproduce the framed sequence. -/
theorem create_masked_lm_empty_desc_shift_eval :
    create_masked_lm_predictions [] ["x", "y"] (mkRat 15 100) ["v"] [1, 2]
        (fun _ => MaskDecision.keep) = ([], ["y", "[SEP]"], [1], ["x"]) ∧
    buildTokens [] ["x", "y"] = ["[CLS]", "x", "y", "[SEP]"] ∧
    ["[CLS]"] ++ ([] : List Token) ++ ["y", "[SEP]"] ++ ["[SEP]"] ≠
      buildTokens [] ["x", "y"] := by
  decide

/-- **C3, counterexample.**  Document `⟨"g", [["a","b"], ["c","d"]], []⟩` with
`max_seq_length = 5` (so `max_body_tokens = 3`): at the flush the last
sentence `["c","d"]` is retained as the overlap seed, yet the emitted body is
`["a","b","c"]` — trimmed from the concatenation of ALL four tokens,
containing the retained sentence's token `"c"` — whereas the claim's
"only the non-retained sentences" would give
`_truncate_seq ["a","b"] 3 = ["a","b"]` (no trimming even needed). -/
theorem create_pairs_retained_in_body_cex :
    create_pairs_from_document ⟨"g", [["a", "b"], ["c", "d"]], []⟩ 5 false
        (fun _ => false) (fun _ _ => false) =
      some [⟨"g", [], ["a", "b", "c"], 5⟩] ∧
    _truncate_seq ["a", "b"] 3 (fun _ => false) = some ["a", "b"] := by
  decide

/-- **C3 (amended).**  At every flush of the body-windowing loop where the
last sentence is retained as the overlap seed (chunk length exceeds
`max_body_tokens`, more than one sentence), the candidate body handed to
`_truncate_seq` is the concatenation of ALL the chunk's sentences — the
retained seed included — and the retained sentence alone seeds the next
chunk. -/
theorem bodyLoop_flush_includes_retained (document : CodePair)
    (targetLen maxNum : ℤ) (docTokens : List Token)
    (flushCoins : ℕ → ℕ → Bool) (seg : List Token)
    (rest : List (List Token)) (i : ℕ) (chunk : List (List Token))
    (curLen : ℕ) (instances : List TrainingInstance) (fl : ℕ)
    (htrig : (i : ℤ) = (document.codes.length : ℤ) - 1 ∨
      targetLen < ((curLen + seg.length : ℕ) : ℤ))
    (hstay : maxNum < ((curLen + seg.length : ℕ) : ℤ) ∧
      1 < (chunk ++ [seg]).length) :
    bodyLoop document targetLen maxNum docTokens flushCoins (seg :: rest) i
        chunk curLen instances fl =
      match _truncate_seq ((chunk ++ [seg]).flatten)
          (maxNum - (docTokens.length : ℤ)) (flushCoins fl) with
      | none => none
      | some code_tokens =>
        if 1 ≤ code_tokens.length then
          bodyLoop document targetLen maxNum docTokens flushCoins rest (i + 1)
            [seg] (seg.length + docTokens.length)
            (if instances = [] ∨ 16 ≤ code_tokens.length then
              instances ++ [mkInstance document docTokens code_tokens]
             else instances) (fl + 1)
        else none := by
  simp only [bodyLoop]
  rw [if_pos htrig]
  simp only [if_pos hstay, List.getLastD_concat]

/-- Witness for `bodyLoop_flush_includes_retained`: at the flush state of
`create_pairs_retained_in_body_cex` the equation instantiates, and the flush
indeed emits the body `["a","b","c"]` (seed token included) and reseeds the
chunk with `["c","d"]`. -/
theorem bodyLoop_flush_includes_retained_witness :
    bodyLoop ⟨"g", [["a", "b"], ["c", "d"]], []⟩ 3 3 [] (fun _ _ => false)
        [["c", "d"]] 1 [["a", "b"]] 2 [] 0 =
      some [⟨"g", [], ["a", "b", "c"], 5⟩] :=
  (bodyLoop_flush_includes_retained ⟨"g", [["a", "b"], ["c", "d"]], []⟩ 3 3 []
    (fun _ _ => false) ["c", "d"] [] 1 [["a", "b"]] 2 [] 0 (by decide)
    (by decide)).trans (by decide)

